import Mathlib

/-!
Shallow embedding of `sqlacodegen/main.py` (the CSV override loaders and the
command-line option table of `main`), together with proofs about the loaders.

Modelling conventions:
* Python exceptions become an explicit `PyError` value returned through
  `Except`.  `raise Exception(msg)` becomes `.error (.exc msg)`; a Python
  `IndexError` from `line[i]` becomes `.error .indexError`; a `NameError`
  raised by referencing an undefined variable `v` becomes
  `.error (.nameError v)`; a `ValueError` (e.g. from `open` with an invalid
  mode string) becomes `.error (.valueError msg)`.
* The file system is passed explicitly as a function from path strings to
  optional file contents; `path.exists()` becomes `(fs path).isSome`.
* Each loader opens its file and iterates over `csv.reader(fh)`; the row
  sequence that the CSV reader yields is passed explicitly as
  `rows : List (List String)`.  A blank line in the file is the empty row
  `[]`, which is what Python's `csv.reader` yields for it.
* A Python `dict` is modelled as an insertion-ordered association list:
  assigning to an existing key replaces the value in place, assigning to a
  fresh key appends the pair at the end, exactly as CPython dicts behave.
-/

set_option linter.unusedVariables false

/-- Python exception outcomes relevant to `main.py`. -/
inductive PyError where
  | exc (msg : String)
  | indexError
  | nameError (var : String)
  | valueError (msg : String)
deriving DecidableEq, Repr

/-- A file system: maps a path to the file contents, `none` when the path
does not exist. -/
abbrev FS := String → Option String

/-- Insertion-ordered association list standing for a Python `dict`. -/
abbrev Dict (α β : Type) := List (α × β)

/-- Python `d[k] = v`: replace in place when the key is present, append
otherwise. -/
def dictSet {α β : Type} [DecidableEq α] : Dict α β → α → β → Dict α β
  | [], k, v => [(k, v)]
  | (k', v') :: rest, k, v =>
      if k = k' then (k, v) :: rest else (k', v') :: dictSet rest k v

/-- Python `d.get(k)` / `k in d` lookup. -/
def dictGet {α β : Type} [DecidableEq α] : Dict α β → α → Option β
  | [], _ => none
  | (k', v') :: rest, k => if k = k' then some v' else dictGet rest k

/-- Keys of the dict, in insertion order. -/
def dictKeys {α β : Type} : Dict α β → List α :=
  fun d => d.map Prod.fst

/-- Python `d.setdefault(k, []).append(v)`. -/
def dictAppend : Dict String (List String) → String → String → Dict String (List String)
  | [], k, v => [(k, [v])]
  | (k', vs) :: rest, k, v =>
      if k = k' then (k', vs ++ [v]) :: rest else (k', vs) :: dictAppend rest k v

/-- Python list indexing `l[i]`: raises `IndexError` when out of range. -/
def pyIndex (l : List String) (i : Nat) : Except PyError String :=
  match l.get? i with
  | some x => .ok x
  | none => .error .indexError

deriving instance DecidableEq for Except

/-- Modelled from the spec: `BackRefDescription` is defined in
`sqlacodegen/codegen.py`, which is not among the provided sources.  Per the
spec (sections 3 and 6) a back-reference override record carries the source
and target table, the chosen back-reference name, an optional explicit join
condition, and an optional forced-singular flag.  `load_backref_csv` calls
the constructor with four positional arguments `(sc, tc, name, pj)`, so the
forced-singular flag keeps its default (`none`). -/
structure BackRefDescription where
  source : String
  target : String
  name : String
  primaryjoin : Option String
  forceSingle : Option Bool := none
deriving DecidableEq, Repr

/-- Body of one loop iteration of `load_backref_csv` for a non-blank row:
`sc = line[0]; tc = line[1]; name = line[2];
pj = line[3] if len(line) >= 4 else None`. -/
def parseBackrefRow (line : List String) : Except PyError BackRefDescription := do
  let sc ← pyIndex line 0
  let tc ← pyIndex line 1
  let name ← pyIndex line 2
  let pj : Option String := if 4 ≤ line.length then line.get? 3 else none
  .ok { source := sc, target := tc, name := name, primaryjoin := pj }

/-- The `for line in csv_reader` loop of `load_backref_csv`, with the
accumulated `backref_relationships` dict made explicit. -/
def backrefGo : List (List String) → Dict (String × String) BackRefDescription →
    Except PyError (Dict (String × String) BackRefDescription)
  | [], acc => .ok acc
  | line :: rest, acc =>
      if line = [] then backrefGo rest acc
      else
        match parseBackrefRow line with
        | .error e => .error e
        | .ok r => backrefGo rest (dictSet acc (r.source, r.target) r)

/-- `load_backref_csv(file_path)` of `main.py`. -/
def load_backref_csv (fs : FS) (file_path : String) (rows : List (List String)) :
    Except PyError (Dict (String × String) BackRefDescription) :=
  if (fs file_path).isNone then
    .error (.exc ("File " ++ file_path ++ " does not exist"))
  else
    backrefGo rows []

/-- The `for line in csv_reader` loop of `load_mixins_csv`.  Note the order
of operations in the source: `line[0]` is read, then the duplicate check
raises, and only afterwards are `line[1]` and `line[2]` read. -/
def mixinsGo : List (List String) → Dict String (String × String) →
    Except PyError (Dict String (String × String))
  | [], acc => .ok acc
  | line :: rest, acc =>
      if line = [] then mixinsGo rest acc
      else
        match pyIndex line 0 with
        | .error e => .error e
        | .ok table_name =>
            if (dictGet acc table_name).isSome then
              .error (.exc ("Only one mixin per table allowed, got more for " ++ table_name))
            else
              match pyIndex line 1, pyIndex line 2 with
              | .ok module_name, .ok class_name =>
                  mixinsGo rest (dictSet acc table_name (module_name, class_name))
              | .error e, _ => .error e
              | .ok _, .error e => .error e

/-- `load_mixins_csv(file_path)` of `main.py`. -/
def load_mixins_csv (fs : FS) (file_path : String) (rows : List (List String)) :
    Except PyError (Dict String (String × String)) :=
  if (fs file_path).isNone then
    .error (.exc ("File " ++ file_path ++ " does not exist"))
  else
    mixinsGo rows []

/-- The `for linen, line in enumerate(csv_reader)` loop of
`load_patches_csv`.  Two slips in the source decide every non-blank row:

* when the patch file does not exist, the source raises
  `Exception(f"File {patch_file} in line {n} does not exist")`, but the loop
  variable is named `linen`, not `n`; evaluating the f-string therefore
  raises `NameError` for the undefined name `n` before the intended
  exception can be built;
* when the patch file does exist, the source runs
  `open(patch_file, 'f')`, and `'f'` is not a valid file mode, so `open`
  raises `ValueError` before anything is read.

Hence the body below errors on every non-blank row; the
`patches_per_table.setdefault(table, []).append(patch)` line is unreachable
from any non-blank row. -/
def patchesGo (fs : FS) : List (List String) → Nat → Dict String (List String) →
    Except PyError (Dict String (List String))
  | [], _, acc => .ok acc
  | line :: rest, linen, acc =>
      if line = [] then patchesGo fs rest (linen + 1) acc
      else
        match pyIndex line 0, pyIndex line 1 with
        | .ok table, .ok patch_file =>
            if (fs patch_file).isNone then
              .error (.nameError "n")
            else
              .error (.valueError "invalid mode: f")
        | .error e, _ => .error e
        | .ok _, .error e => .error e

/-- `load_patches_csv(file_path)` of `main.py`. -/
def load_patches_csv (fs : FS) (file_path : String) (rows : List (List String)) :
    Except PyError (Dict String (List String)) :=
  if (fs file_path).isNone then
    .error (.exc ("File " ++ file_path ++ " does not exist"))
  else
    patchesGo fs rows 0 []

/-- The option strings registered on the argument parser in `main`
(`parser.add_argument(...)` calls, in source order). -/
def parserFlags : List String :=
  ["url", "--version", "--schema", "--tables", "--noviews", "--noindexes",
   "--noconstraints", "--nojoined", "--noinflect", "--noclasses",
   "--nocomments", "--outfile", "--table_backref_file", "--add_version",
   "--table_mixins", "--table_patches"]

/-- The eight configuration switches the spec lists in section 6. -/
inductive ConfigSwitch where
  | excludeViews
  | excludeIndexes
  | excludeConstraints
  | disableJoinedInheritance
  | disableSingularization
  | disableClasses
  | disableComments
  | passiveDeletes
deriving DecidableEq, Repr

/-- Which parser flag of `main` implements each spec switch, read off the
`add_argument` calls and their help strings: `--noviews` ignores views,
`--noindexes` ignores indexes, `--noconstraints` ignores constraints,
`--nojoined` disables joined-table-inheritance autodetection, `--noinflect`
disables singularization of table names, `--noclasses` generates only
tables, `--nocomments` disables column comments.  No `add_argument` call in
`main` registers any passive-delete option, so the last switch maps to
`none`. -/
def flagFor : ConfigSwitch → Option String
  | .excludeViews => some "--noviews"
  | .excludeIndexes => some "--noindexes"
  | .excludeConstraints => some "--noconstraints"
  | .disableJoinedInheritance => some "--nojoined"
  | .disableSingularization => some "--noinflect"
  | .disableClasses => some "--noclasses"
  | .disableComments => some "--nocomments"
  | .passiveDeletes => none

/-- Rows of the CSV with the blank lines removed. -/
def nonblank (rows : List (List String)) : List (List String) :=
  rows.filter (fun r => !r.isEmpty)

/-- First fields of the non-blank rows, in order. -/
def firsts (rows : List (List String)) : List String :=
  (nonblank rows).map (fun r => r.getD 0 "")

/-- The last non-blank row whose first two fields are the given pair. -/
def lastFor : List (List String) → String × String → Option (List String)
  | [], _ => none
  | row :: rest, p =>
      match lastFor rest p with
      | some r => some r
      | none =>
          if row ≠ [] ∧ row.getD 0 "" = p.1 ∧ row.getD 1 "" = p.2 then some row
          else none

/-- The record `load_backref_csv` builds from a (well-formed, non-blank)
row. -/
def mkBackRef (row : List String) : BackRefDescription :=
  { source := row.getD 0 "", target := row.getD 1 "", name := row.getD 2 "",
    primaryjoin := if 4 ≤ row.length then row.get? 3 else none,
    forceSingle := none }

/-- Well-formedness precondition: every non-blank row has at least three
fields. -/
abbrev wf3 (rows : List (List String)) : Prop :=
  ∀ row ∈ rows, row ≠ [] → 3 ≤ row.length

/-- A file system in which every path exists. -/
def fsAll : FS := fun _ => some ""

/-- A file system in which no path exists. -/
def fsNone : FS := fun _ => none

/-- A file system in which every path except `missing.txt` exists. -/
def fsNoFrag : FS := fun p => if p = "missing.txt" then none else some ""

/-! ### Dictionary lemmas -/

theorem dictKeys_nil {α β : Type} : dictKeys ([] : Dict α β) = [] := rfl

theorem dictKeys_cons {α β : Type} (a : α) (b : β) (tl : Dict α β) :
    dictKeys ((a, b) :: tl) = a :: dictKeys tl := rfl

theorem dictGet_dictSet_self {α β : Type} [DecidableEq α] (d : Dict α β) (k : α) (v : β) :
    dictGet (dictSet d k v) k = some v := by
  induction d with
  | nil => simp [dictSet, dictGet]
  | cons hd tl ih =>
      obtain ⟨a, b⟩ := hd
      by_cases h : k = a
      · simp [dictSet, dictGet, h]
      · simp [dictSet, dictGet, h, ih]

theorem dictGet_dictSet_ne {α β : Type} [DecidableEq α] (d : Dict α β) (k k' : α) (v : β)
    (h : k' ≠ k) : dictGet (dictSet d k v) k' = dictGet d k' := by
  induction d with
  | nil => simp [dictSet, dictGet, h]
  | cons hd tl ih =>
      obtain ⟨a, b⟩ := hd
      by_cases hk : k = a
      · subst hk; simp [dictSet, dictGet, h]
      · simp [dictSet, dictGet, hk, ih]

theorem dictGet_eq_none_iff {α β : Type} [DecidableEq α] (d : Dict α β) (k : α) :
    dictGet d k = none ↔ k ∉ dictKeys d := by
  induction d with
  | nil => simp [dictGet, dictKeys_nil]
  | cons hd tl ih =>
      obtain ⟨a, b⟩ := hd
      by_cases h : k = a <;> simp [dictGet, dictKeys_cons, h, ih]

theorem dictKeys_dictSet_of_not_mem {α β : Type} [DecidableEq α] (d : Dict α β) (k : α) (v : β)
    (h : k ∉ dictKeys d) : dictKeys (dictSet d k v) = dictKeys d ++ [k] := by
  induction d with
  | nil => simp [dictSet, dictKeys_nil, dictKeys_cons]
  | cons hd tl ih =>
      obtain ⟨a, b⟩ := hd
      rw [dictKeys_cons] at h
      simp only [List.mem_cons, not_or] at h
      obtain ⟨h1, h2⟩ := h
      simp [dictSet, h1, dictKeys_cons, ih h2]

theorem dictKeys_dictSet_of_mem {α β : Type} [DecidableEq α] (d : Dict α β) (k : α) (v : β)
    (h : k ∈ dictKeys d) : dictKeys (dictSet d k v) = dictKeys d := by
  induction d with
  | nil => simp [dictKeys_nil] at h
  | cons hd tl ih =>
      obtain ⟨a, b⟩ := hd
      by_cases hk : k = a
      · subst hk; simp [dictSet, dictKeys_cons]
      · rw [dictKeys_cons] at h
        rcases List.mem_cons.mp h with h' | h'
        · exact absurd h' hk
        · simp [dictSet, hk, dictKeys_cons, ih h']

theorem dictKeys_nodup_dictSet {α β : Type} [DecidableEq α] (d : Dict α β) (k : α) (v : β)
    (h : (dictKeys d).Nodup) : (dictKeys (dictSet d k v)).Nodup := by
  by_cases hm : k ∈ dictKeys d
  · rw [dictKeys_dictSet_of_mem d k v hm]; exact h
  · rw [dictKeys_dictSet_of_not_mem d k v hm]
    simp [List.nodup_append, h, hm]

theorem dictGet_of_mem_of_nodup {α β : Type} [DecidableEq α] (d : Dict α β) (p : α) (r : β)
    (hn : (dictKeys d).Nodup) (hm : (p, r) ∈ d) : dictGet d p = some r := by
  induction d with
  | nil => simp at hm
  | cons hd tl ih =>
      obtain ⟨a, b⟩ := hd
      rw [dictKeys_cons, List.nodup_cons] at hn
      obtain ⟨ha, hn'⟩ := hn
      rcases List.mem_cons.mp hm with h | h
      · rw [Prod.mk.injEq] at h
        obtain ⟨h1, h2⟩ := h
        subst h1; subst h2
        simp [dictGet]
      · have hp : p ∈ dictKeys tl := by
          have := List.mem_map_of_mem Prod.fst h
          simpa [dictKeys] using this
        have hne : p ≠ a := fun e => ha (e ▸ hp)
        simp [dictGet, hne, ih hn' h]

/-! ### Indexing and row-parsing lemmas -/

theorem pyIndex_ok (l : List String) (i : Nat) (h : i < l.length) :
    pyIndex l i = .ok (l.getD i "") := by
  have h1 : l[i]? = some l[i] := List.getElem?_eq_getElem h
  simp [pyIndex, List.getD_eq_getElem?_getD, h1]

theorem pyIndex_err (l : List String) (i : Nat) (h : l.length ≤ i) :
    pyIndex l i = .error .indexError := by
  have h1 : l[i]? = none := List.getElem?_eq_none h
  simp [pyIndex, h1]

theorem parseBackrefRow_ok (line : List String) (h : 3 ≤ line.length) :
    parseBackrefRow line = .ok (mkBackRef line) := by
  have h0 := pyIndex_ok line 0 (by omega)
  have h1 := pyIndex_ok line 1 (by omega)
  have h2 := pyIndex_ok line 2 (by omega)
  simp [parseBackrefRow, h0, h1, h2, mkBackRef, Bind.bind, Except.bind]

theorem parseBackrefRow_short (line : List String) (h : line.length < 3) :
    parseBackrefRow line = .error .indexError := by
  rcases line with _ | ⟨a, _ | ⟨b, _ | ⟨c, t⟩⟩⟩
  · simp [parseBackrefRow, pyIndex, Bind.bind, Except.bind]
  · simp [parseBackrefRow, pyIndex, Bind.bind, Except.bind]
  · simp [parseBackrefRow, pyIndex, Bind.bind, Except.bind]
  · simp at h; omega

/-! ### Blank-row and last-match lemmas -/

theorem nonblank_nil : nonblank [] = [] := rfl

theorem nonblank_cons_blank (rest : List (List String)) :
    nonblank ([] :: rest) = nonblank rest := by
  simp [nonblank]

theorem nonblank_cons_of_ne (row : List String) (rest : List (List String)) (h : row ≠ []) :
    nonblank (row :: rest) = row :: nonblank rest := by
  simp [nonblank, List.filter_cons, h]

theorem firsts_nil : firsts [] = [] := rfl

theorem firsts_cons_blank (rest : List (List String)) :
    firsts ([] :: rest) = firsts rest := by
  simp [firsts, nonblank_cons_blank]

theorem firsts_cons_of_ne (row : List String) (rest : List (List String)) (h : row ≠ []) :
    firsts (row :: rest) = row.getD 0 "" :: firsts rest := by
  simp [firsts, nonblank_cons_of_ne row rest h]

theorem lastFor_nil (p : String × String) : lastFor [] p = none := rfl

theorem lastFor_cons_blank (rest : List (List String)) (p : String × String) :
    lastFor ([] :: rest) p = lastFor rest p := by
  cases h : lastFor rest p <;> simp [lastFor, h]

theorem lastFor_mem (rows : List (List String)) (p : String × String) (row : List String)
    (h : lastFor rows p = some row) :
    row ∈ rows ∧ row ≠ [] ∧ row.getD 0 "" = p.1 ∧ row.getD 1 "" = p.2 := by
  induction rows with
  | nil => simp [lastFor_nil] at h
  | cons hd tl ih =>
      rw [lastFor] at h
      cases htl : lastFor tl p with
      | some r =>
          rw [htl] at h
          have hr : r = row := Option.some.inj h
          rw [← hr]
          obtain ⟨hm, hrest⟩ := ih (hr ▸ htl)
          exact ⟨List.mem_cons_of_mem _ (hr ▸ hm), hr ▸ hrest⟩
      | none =>
          rw [htl] at h
          by_cases hc : hd ≠ [] ∧ hd.getD 0 "" = p.1 ∧ hd.getD 1 "" = p.2
          · rw [if_pos hc] at h
            have hr : hd = row := Option.some.inj h
            rw [← hr]
            exact ⟨List.mem_cons_self _ _, hc⟩
          · rw [if_neg hc] at h
            exact absurd h (by simp)

/-! ### Characterization of the backref loader loop -/

theorem backrefGo_spec (rows : List (List String)) :
    ∀ acc, wf3 rows → (dictKeys acc).Nodup →
      ∃ l, backrefGo rows acc = .ok l ∧ (dictKeys l).Nodup ∧
        ∀ p, dictGet l p =
          match lastFor rows p with
          | some r => some (mkBackRef r)
          | none => dictGet acc p := by
  induction rows with
  | nil =>
      intro acc hwf hn
      exact ⟨acc, rfl, hn, fun p => by rw [lastFor_nil]⟩
  | cons hd tl ih =>
      intro acc hwf hn
      have hwf' : wf3 tl := fun row hm => hwf row (List.mem_cons_of_mem _ hm)
      by_cases hhd : hd = []
      · subst hhd
        obtain ⟨l, hgo, hln, hlook⟩ := ih acc hwf' hn
        refine ⟨l, ?_, hln, fun p => ?_⟩
        · simpa [backrefGo] using hgo
        · rw [lastFor_cons_blank]
          exact hlook p
      · have hlen : 3 ≤ hd.length := hwf hd (List.mem_cons_self _ _) hhd
        have hparse := parseBackrefRow_ok hd hlen
        have hn' : (dictKeys (dictSet acc (hd.getD 0 "", hd.getD 1 "") (mkBackRef hd))).Nodup :=
          dictKeys_nodup_dictSet acc _ _ hn
        obtain ⟨l, hgo, hln, hlook⟩ :=
          ih (dictSet acc (hd.getD 0 "", hd.getD 1 "") (mkBackRef hd)) hwf' hn'
        refine ⟨l, ?_, hln, fun p => ?_⟩
        · rw [backrefGo, if_neg hhd, hparse]
          exact hgo
        · cases htl : lastFor tl p with
          | some r =>
              have hcons : lastFor (hd :: tl) p = some r := by rw [lastFor, htl]
              rw [hcons]
              have := hlook p
              rw [htl] at this
              exact this
          | none =>
              have hl := hlook p
              rw [htl] at hl
              by_cases hc : hd.getD 0 "" = p.1 ∧ hd.getD 1 "" = p.2
              · have hcons : lastFor (hd :: tl) p = some hd := by
                  rw [lastFor, htl]
                  exact if_pos ⟨hhd, hc.1, hc.2⟩
                rw [hcons]
                have hp : p = (hd.getD 0 "", hd.getD 1 "") := by
                  rw [hc.1, hc.2]
                rw [hl, hp]
                exact dictGet_dictSet_self acc _ _
              · have hcons : lastFor (hd :: tl) p = none := by
                  rw [lastFor, htl]
                  simp only [ne_eq, ite_eq_right_iff]
                  intro hcond
                  exact absurd ⟨hcond.2.1, hcond.2.2⟩ hc
                rw [hcons, hl]
                refine dictGet_dictSet_ne acc _ _ _ ?_
                intro he
                exact hc ⟨by rw [he], by rw [he]⟩

theorem backrefGo_short (rows : List (List String)) :
    ∀ acc, (∃ row ∈ rows, row ≠ [] ∧ row.length < 3) →
      backrefGo rows acc = .error .indexError := by
  induction rows with
  | nil => intro acc h; simp at h
  | cons hd tl ih =>
      intro acc h
      by_cases hhd : hd = []
      · subst hhd
        rw [backrefGo, if_pos rfl]
        apply ih
        obtain ⟨row, hm, hne, hlt⟩ := h
        rcases List.mem_cons.mp hm with rfl | hm'
        · exact absurd rfl hne
        · exact ⟨row, hm', hne, hlt⟩
      · by_cases hlen : hd.length < 3
        · rw [backrefGo, if_neg hhd, parseBackrefRow_short hd hlen]
        · rw [backrefGo, if_neg hhd, parseBackrefRow_ok hd (by omega)]
          apply ih
          obtain ⟨row, hm, hne, hlt⟩ := h
          rcases List.mem_cons.mp hm with rfl | hm'
          · omega
          · exact ⟨row, hm', hne, hlt⟩

/-! ### Characterization of the mixins loader loop -/

theorem mixinsGo_ok (rows : List (List String)) :
    ∀ acc, wf3 rows → (dictKeys acc ++ firsts rows).Nodup →
      ∃ l, mixinsGo rows acc = .ok l ∧
        (∀ k, k ∈ dictKeys acc → dictGet l k = dictGet acc k) ∧
        ∀ row ∈ rows, row ≠ [] →
          dictGet l (row.getD 0 "") = some (row.getD 1 "", row.getD 2 "") := by
  induction rows with
  | nil =>
      intro acc hwf hn
      exact ⟨acc, rfl, fun k _ => rfl, fun row hm => absurd hm (List.not_mem_nil row)⟩
  | cons hd tl ih =>
      intro acc hwf hn
      have hwf' : wf3 tl := fun row hm => hwf row (List.mem_cons_of_mem _ hm)
      by_cases hhd : hd = []
      · subst hhd
        rw [firsts_cons_blank] at hn
        obtain ⟨l, hgo, hpres, hcov⟩ := ih acc hwf' hn
        refine ⟨l, by simpa [mixinsGo] using hgo, hpres, ?_⟩
        intro row hm hne
        rcases List.mem_cons.mp hm with rfl | hm'
        · exact absurd rfl hne
        · exact hcov row hm' hne
      · have hlen : 3 ≤ hd.length := hwf hd (List.mem_cons_self _ _) hhd
        rw [firsts_cons_of_ne hd tl hhd] at hn
        have hmem : hd.getD 0 "" ∉ dictKeys acc := by
          intro hmem
          exact (List.nodup_append.mp hn).2.2 hmem (List.mem_cons_self _ _)
        have hget : dictGet acc (hd.getD 0 "") = none := (dictGet_eq_none_iff _ _).mpr hmem
        have hkeys := dictKeys_dictSet_of_not_mem acc (hd.getD 0 "") (hd.getD 1 "", hd.getD 2 "") hmem
        have hn2 : (dictKeys (dictSet acc (hd.getD 0 "") (hd.getD 1 "", hd.getD 2 ""))
            ++ firsts tl).Nodup := by
          rw [hkeys, List.append_assoc, List.singleton_append]
          exact hn
        obtain ⟨l, hgo, hpres, hcov⟩ := ih _ hwf' hn2
        have e0 := pyIndex_ok hd 0 (by omega)
        have e1 := pyIndex_ok hd 1 (by omega)
        have e2 := pyIndex_ok hd 2 (by omega)
        refine ⟨l, ?_, ?_, ?_⟩
        · rw [mixinsGo, if_neg hhd, e0]
          simp only [hget, Option.isSome_none, Bool.false_eq_true, if_false, e1, e2]
          exact hgo
        · intro k hk
          have hk' : k ∈ dictKeys (dictSet acc (hd.getD 0 "") (hd.getD 1 "", hd.getD 2 "")) := by
            rw [hkeys]
            exact List.mem_append_left _ hk
          have hne : k ≠ hd.getD 0 "" := fun e => hmem (e ▸ hk)
          rw [hpres k hk', dictGet_dictSet_ne acc _ _ _ hne]
        · intro row hm hne
          rcases List.mem_cons.mp hm with rfl | hm'
          · have hk' : row.getD 0 "" ∈
                dictKeys (dictSet acc (row.getD 0 "") (row.getD 1 "", row.getD 2 "")) := by
              rw [hkeys]
              exact List.mem_append_right _ (List.mem_cons_self _ _)
            rw [hpres _ hk', dictGet_dictSet_self]
          · exact hcov row hm' hne

theorem mixinsGo_dup (rows : List (List String)) :
    ∀ acc, wf3 rows → (dictKeys acc).Nodup → ¬ (dictKeys acc ++ firsts rows).Nodup →
      ∃ t, mixinsGo rows acc =
          .error (.exc ("Only one mixin per table allowed, got more for " ++ t)) ∧
        2 ≤ (dictKeys acc ++ firsts rows).count t := by
  induction rows with
  | nil =>
      intro acc hwf hna hn
      rw [firsts_nil, List.append_nil] at hn
      exact absurd hna hn
  | cons hd tl ih =>
      intro acc hwf hna hn
      have hwf' : wf3 tl := fun row hm => hwf row (List.mem_cons_of_mem _ hm)
      by_cases hhd : hd = []
      · subst hhd
        rw [firsts_cons_blank] at hn ⊢
        obtain ⟨t, hgo, hcount⟩ := ih acc hwf' hna hn
        exact ⟨t, by simpa [mixinsGo] using hgo, hcount⟩
      · have hlen : 3 ≤ hd.length := hwf hd (List.mem_cons_self _ _) hhd
        have e0 := pyIndex_ok hd 0 (by omega)
        rw [firsts_cons_of_ne hd tl hhd] at hn ⊢
        by_cases hget : dictGet acc (hd.getD 0 "") = none
        · have hmem : hd.getD 0 "" ∉ dictKeys acc := (dictGet_eq_none_iff _ _).mp hget
          have hkeys := dictKeys_dictSet_of_not_mem acc (hd.getD 0 "") (hd.getD 1 "", hd.getD 2 "") hmem
          have hna' : (dictKeys (dictSet acc (hd.getD 0 "") (hd.getD 1 "", hd.getD 2 ""))).Nodup :=
            dictKeys_nodup_dictSet acc _ _ hna
          have hn' : ¬ (dictKeys (dictSet acc (hd.getD 0 "") (hd.getD 1 "", hd.getD 2 ""))
              ++ firsts tl).Nodup := by
            rw [hkeys, List.append_assoc, List.singleton_append]
            exact hn
          obtain ⟨t, hgo, hcount⟩ := ih _ hwf' hna' hn'
          have e1 := pyIndex_ok hd 1 (by omega)
          have e2 := pyIndex_ok hd 2 (by omega)
          refine ⟨t, ?_, ?_⟩
          · rw [mixinsGo, if_neg hhd, e0]
            simp only [hget, Option.isSome_none, Bool.false_eq_true, if_false, e1, e2]
            exact hgo
          · rw [hkeys, List.append_assoc, List.singleton_append] at hcount
            exact hcount
        · have hs : (dictGet acc (hd.getD 0 "")).isSome = true := by
            cases h' : dictGet acc (hd.getD 0 "") with
            | none => exact absurd h' hget
            | some v => rfl
          have hmem : hd.getD 0 "" ∈ dictKeys acc := by
            by_contra hh
            exact hget ((dictGet_eq_none_iff _ _).mpr hh)
          refine ⟨hd.getD 0 "", ?_, ?_⟩
          · rw [mixinsGo, if_neg hhd, e0]
            simp only [hs, if_true]
          · rw [List.count_append, List.count_cons_self]
            have h1 : 0 < (dictKeys acc).count (hd.getD 0 "") := List.count_pos_iff.mpr hmem
            omega

/-! ### The patches loop and blank-line removal -/

theorem patchesGo_linen (fs : FS) (rows : List (List String)) :
    ∀ n m acc, patchesGo fs rows n acc = patchesGo fs rows m acc := by
  induction rows with
  | nil => intro n m acc; rfl
  | cons hd tl ih =>
      intro n m acc
      by_cases hhd : hd = []
      · subst hhd
        rw [patchesGo, patchesGo, if_pos rfl, if_pos rfl]
        exact ih (n + 1) (m + 1) acc
      · rw [patchesGo, patchesGo, if_neg hhd, if_neg hhd]

theorem backrefGo_filter (rows : List (List String)) :
    ∀ acc, backrefGo (nonblank rows) acc = backrefGo rows acc := by
  induction rows with
  | nil => intro acc; rfl
  | cons hd tl ih =>
      intro acc
      by_cases hhd : hd = []
      · subst hhd
        rw [nonblank_cons_blank, ih]
        simp [backrefGo]
      · rw [nonblank_cons_of_ne hd tl hhd]
        simp only [backrefGo, if_neg hhd]
        cases hp : parseBackrefRow hd with
        | error e => rfl
        | ok r => exact ih _

theorem mixinsGo_filter (rows : List (List String)) :
    ∀ acc, mixinsGo (nonblank rows) acc = mixinsGo rows acc := by
  induction rows with
  | nil => intro acc; rfl
  | cons hd tl ih =>
      intro acc
      by_cases hhd : hd = []
      · subst hhd
        rw [nonblank_cons_blank, ih]
        simp [mixinsGo]
      · rw [nonblank_cons_of_ne hd tl hhd]
        simp only [mixinsGo, if_neg hhd]
        cases h0 : pyIndex hd 0 with
        | error e => rfl
        | ok t =>
            simp only []
            by_cases hs : (dictGet acc t).isSome = true
            · simp only [hs, if_true]
            · simp only [Bool.not_eq_true] at hs
              simp only [hs, Bool.false_eq_true, if_false]
              cases h1 : pyIndex hd 1 with
              | error e => rfl
              | ok m =>
                  cases h2 : pyIndex hd 2 with
                  | error e => rfl
                  | ok c => exact ih _

theorem patchesGo_filter (fs : FS) (rows : List (List String)) :
    ∀ n acc, patchesGo fs (nonblank rows) n acc = patchesGo fs rows n acc := by
  induction rows with
  | nil => intro n acc; rfl
  | cons hd tl ih =>
      intro n acc
      by_cases hhd : hd = []
      · subst hhd
        rw [nonblank_cons_blank, ih n acc]
        rw [patchesGo, if_pos rfl]
        exact patchesGo_linen fs tl n (n + 1) acc
      · rw [nonblank_cons_of_ne hd tl hhd]
        rw [patchesGo, patchesGo, if_neg hhd, if_neg hhd]

/-! ### Small auxiliary lemmas for the claim theorems -/

theorem isNone_eq_false {o : Option String} (h : o.isSome = true) : o.isNone = false := by
  cases o with
  | none => simp at h
  | some v => rfl

theorem lastFor_isSome_of_mem (rows : List (List String)) (row : List String)
    (hm : row ∈ rows) (hne : row ≠ []) :
    (lastFor rows (row.getD 0 "", row.getD 1 "")).isSome = true := by
  induction rows with
  | nil => simp at hm
  | cons hd tl ih =>
      cases htl : lastFor tl (row.getD 0 "", row.getD 1 "") with
      | some r => rw [lastFor, htl]; rfl
      | none =>
          rw [lastFor, htl]
          rcases List.mem_cons.mp hm with rfl | hm'
          · rw [if_pos ⟨hne, rfl, rfl⟩]; rfl
          · have := ih hm'
            rw [htl] at this
            simp at this

theorem mkBackRef_primaryjoin_none_iff (row : List String) :
    ((mkBackRef row).primaryjoin = none) ↔ row.length < 4 := by
  by_cases h4 : 4 ≤ row.length
  · have h3 : row.get? 3 = some (row.getD 3 "") := by
      rw [List.get?_eq_getElem?, List.getElem?_eq_getElem (by omega : 3 < row.length),
        List.getD_eq_getElem?_getD, List.getElem?_eq_getElem (by omega : 3 < row.length)]
      rfl
    simp only [mkBackRef, if_pos h4, h3]
    constructor
    · intro h
      exact absurd h (by simp)
    · intro h
      omega
  · simp only [mkBackRef, if_neg h4]
    constructor
    · intro _
      omega
    · intro _
      trivial

theorem mkBackRef_primaryjoin_get (row : List String) (j : String)
    (h : (mkBackRef row).primaryjoin = some j) : row.getD 3 "" = j := by
  by_cases h4 : 4 ≤ row.length
  · simp only [mkBackRef, if_pos h4] at h
    rw [List.getD_eq_getElem?_getD, ← List.get?_eq_getElem?, h]
    rfl
  · simp only [mkBackRef, if_neg h4] at h
    exact absurd h (by simp)

/-! ### Claim theorems -/

/-- C1 (counterexample): the claim says that when the back-reference CSV
contains more than one row for the same (source table, target table) pair,
the loaded override table retains every such record.  On the concrete input
with two rows for the pair `("a", "b")`, the loader returns a table holding
only the record built from the last row (`name = "n2"`); the record built
from the first row (`name = "n1"`) is not in the result. -/
theorem C1_counterexample :
    load_backref_csv fsAll "backrefs.csv" [["a", "b", "n1"], ["a", "b", "n2"]] =
      .ok [(("a", "b"),
        { source := "a", target := "b", name := "n2", primaryjoin := none })] ∧
    (("a", "b"),
        ({ source := "a", target := "b", name := "n1", primaryjoin := none } :
          BackRefDescription)) ∉
      [(("a", "b"),
        ({ source := "a", target := "b", name := "n2", primaryjoin := none } :
          BackRefDescription))] := by
  decide

/-- C1 (amended): the loaded back-reference override table keeps at most one
record per (source table, target table) pair — when several rows share a
pair, only one record (the one from the last such row) survives; every pair
that occurs in some non-blank row is present exactly once. -/
theorem C1_amended_thm (fs : FS) (file_path : String) (rows : List (List String))
    (hex : (fs file_path).isSome = true) (hwf : wf3 rows) :
    ∃ l, load_backref_csv fs file_path rows = .ok l ∧ (dictKeys l).Nodup ∧
      ∀ row ∈ rows, row ≠ [] →
        (dictGet l (row.getD 0 "", row.getD 1 "")).isSome = true := by
  obtain ⟨l, hgo, hn, hlook⟩ := backrefGo_spec rows [] hwf (by simp [dictKeys_nil])
  refine ⟨l, ?_, hn, ?_⟩
  · rw [load_backref_csv]
    simp only [isNone_eq_false hex, Bool.false_eq_true, if_false]
    exact hgo
  · intro row hm hne
    rw [hlook (row.getD 0 "", row.getD 1 "")]
    have hs := lastFor_isSome_of_mem rows row hm hne
    cases hl : lastFor rows (row.getD 0 "", row.getD 1 "") with
    | none => rw [hl] at hs; simp at hs
    | some r => rfl

/-- C1 (witness for the amended theorem). -/
theorem C1_amended_witness :
    ∃ l, load_backref_csv fsAll "backrefs.csv" [["a", "b", "n1"], ["a", "b", "n2"]] =
        .ok l ∧ (dictKeys l).Nodup ∧
      ∀ row ∈ [["a", "b", "n1"], ["a", "b", "n2"]], row ≠ [] →
        (dictGet l (row.getD 0 "", row.getD 1 "")).isSome = true :=
  C1_amended_thm fsAll "backrefs.csv" [["a", "b", "n1"], ["a", "b", "n2"]] rfl (by decide)

/-- C2: when the mixin override CSV assigns two mixins to the same table,
`load_mixins_csv` raises an exception whose message names the offending
table (a table whose first field occurs at least twice); when every table
appears at most once, loading succeeds and maps each table name to its
single (module, class name) pair.  The CSV is assumed well-formed: every
non-blank row has at least three fields. -/
theorem C2_thm (fs : FS) (file_path : String) (rows : List (List String))
    (hex : (fs file_path).isSome = true) (hwf : wf3 rows) :
    (¬ (firsts rows).Nodup →
      ∃ t, 2 ≤ (firsts rows).count t ∧
        load_mixins_csv fs file_path rows =
          .error (.exc ("Only one mixin per table allowed, got more for " ++ t))) ∧
    ((firsts rows).Nodup →
      ∃ l, load_mixins_csv fs file_path rows = .ok l ∧
        ∀ row ∈ rows, row ≠ [] →
          dictGet l (row.getD 0 "") = some (row.getD 1 "", row.getD 2 "")) := by
  constructor
  · intro hdup
    obtain ⟨t, hgo, hcount⟩ := mixinsGo_dup rows [] hwf (by simp [dictKeys_nil])
      (by simpa [dictKeys_nil] using hdup)
    refine ⟨t, by simpa [dictKeys_nil] using hcount, ?_⟩
    rw [load_mixins_csv]
    simp only [isNone_eq_false hex, Bool.false_eq_true, if_false]
    exact hgo
  · intro hnodup
    obtain ⟨l, hgo, _, hcov⟩ := mixinsGo_ok rows [] hwf (by simpa [dictKeys_nil] using hnodup)
    refine ⟨l, ?_, hcov⟩
    rw [load_mixins_csv]
    simp only [isNone_eq_false hex, Bool.false_eq_true, if_false]
    exact hgo

/-- C2 (witness): a duplicate assignment for table `t` is reported with `t`
in the message; a duplicate-free file loads into the expected mapping. -/
theorem C2_witness :
    (∃ t, 2 ≤ (firsts [["t", "m", "c"], ["t", "m2", "c2"]]).count t ∧
      load_mixins_csv fsAll "mixins.csv" [["t", "m", "c"], ["t", "m2", "c2"]] =
        .error (.exc ("Only one mixin per table allowed, got more for " ++ t))) ∧
    (∃ l, load_mixins_csv fsAll "mixins2.csv" [["u", "m", "c"]] = .ok l ∧
      ∀ row ∈ [["u", "m", "c"]], row ≠ [] →
        dictGet l (row.getD 0 "") = some (row.getD 1 "", row.getD 2 "")) :=
  ⟨(C2_thm fsAll "mixins.csv" [["t", "m", "c"], ["t", "m2", "c2"]] rfl (by decide)).1
      (by decide),
   (C2_thm fsAll "mixins2.csv" [["u", "m", "c"]] rfl (by decide)).2 (by decide)⟩

/-- C3 (code bug): on a patches CSV whose single row names an existing patch
file, the loader does not return the mapping the claim describes; it raises
`ValueError` because the source opens the patch file with the invalid mode
string `'f'` (a slip for `'r'`). -/
theorem C3_thm :
    load_patches_csv fsAll "patches.csv" [["t", "frag.txt"]] =
      .error (.valueError "invalid mode: f") := by
  decide

/-- C4 (code bug): on a patches CSV whose single row names a missing patch
file, the loader does not raise the intended message naming the file and the
line; it raises `NameError` for the undefined name `n`, because the error
f-string references `n` while the loop variable is named `linen`. -/
theorem C4_thm :
    load_patches_csv fsNoFrag "patches.csv" [["t", "missing.txt"]] =
      .error (.nameError "n") := by
  decide

/-- C5: every record in the loaded back-reference override table carries the
chosen back-reference name (field 3 of its row), a join-condition override
that is `none` exactly when the row has fewer than four fields (and is the
fourth field otherwise), and the optional forced-singular flag at its
default `none` (the loader never sets it). -/
theorem C5_thm (fs : FS) (file_path : String) (rows : List (List String))
    (hex : (fs file_path).isSome = true) (hwf : wf3 rows) :
    ∃ l, load_backref_csv fs file_path rows = .ok l ∧
      ∀ p r, (p, r) ∈ l →
        ∃ row ∈ rows, row ≠ [] ∧
          r.name = row.getD 2 "" ∧
          (r.primaryjoin = none ↔ row.length < 4) ∧
          (∀ j, r.primaryjoin = some j → row.getD 3 "" = j) ∧
          r.forceSingle = none := by
  obtain ⟨l, hgo, hn, hlook⟩ := backrefGo_spec rows [] hwf (by simp [dictKeys_nil])
  refine ⟨l, ?_, fun p r hm => ?_⟩
  · rw [load_backref_csv]
    simp only [isNone_eq_false hex, Bool.false_eq_true, if_false]
    exact hgo
  · have hget : dictGet l p = some r := dictGet_of_mem_of_nodup l p r hn hm
    rw [hlook p] at hget
    cases hl : lastFor rows p with
    | none => rw [hl] at hget; simp [dictGet] at hget
    | some row =>
        rw [hl] at hget
        have hr : mkBackRef row = r := Option.some.inj hget
        obtain ⟨hmem, hne, _, _⟩ := lastFor_mem rows p row hl
        refine ⟨row, hmem, hne, ?_, ?_, ?_, ?_⟩
        · rw [← hr]; rfl
        · rw [← hr]
          exact mkBackRef_primaryjoin_none_iff row
        · intro j hj
          exact mkBackRef_primaryjoin_get row j (hr ▸ hj)
        · rw [← hr]; rfl

/-- C5 (witness). -/
theorem C5_witness :
    ∃ l, load_backref_csv fsAll "backrefs5.csv" [["a", "b", "n"], ["c", "d", "m", "J"]] =
        .ok l ∧
      ∀ p r, (p, r) ∈ l →
        ∃ row ∈ [["a", "b", "n"], ["c", "d", "m", "J"]], row ≠ [] ∧
          r.name = row.getD 2 "" ∧
          (r.primaryjoin = none ↔ row.length < 4) ∧
          (∀ j, r.primaryjoin = some j → row.getD 3 "" = j) ∧
          r.forceSingle = none :=
  C5_thm fsAll "backrefs5.csv" [["a", "b", "n"], ["c", "d", "m", "J"]] rfl (by decide)

/-- C6 (counterexample): the spec's eighth configuration switch — enable
passive-delete behavior on relationships — is implemented by no option of
`main`'s argument parser: `flagFor` maps it to `none`, while the other seven
switches map to registered flags.  Hence the recognized switches do not
include all eight listed options. -/
theorem C6_counterexample : flagFor ConfigSwitch.passiveDeletes = none := by
  decide

/-- C6 (amended): the engine's argument parser recognizes seven of the eight
listed options — exclude views, exclude indexes, exclude constraints,
disable inheritance auto-detection, disable name singularization, disable
class generation, disable comment rendering — each implemented by a
registered parser flag; no passive-delete switch is recognized. -/
theorem C6_amended (s : ConfigSwitch) (h : s ≠ ConfigSwitch.passiveDeletes) :
    ∃ f, flagFor s = some f ∧ f ∈ parserFlags := by
  cases s
  case passiveDeletes => exact absurd rfl h
  all_goals exact ⟨_, rfl, by decide⟩

/-- C6 (witness for the amended theorem). -/
theorem C6_amended_witness :
    ∃ f, flagFor ConfigSwitch.excludeViews = some f ∧ f ∈ parserFlags :=
  C6_amended ConfigSwitch.excludeViews (by decide)

/-- C7: when the override file path does not exist, each of the three
loaders raises an exception whose message names the missing file (the path
occurs verbatim in the message), and returns no mapping. -/
theorem C7_thm (fs : FS) (file_path : String)
    (rows1 rows2 rows3 : List (List String)) (h : fs file_path = none) :
    (∃ pre post,
      "File " ++ file_path ++ " does not exist" = pre ++ file_path ++ post) ∧
    load_backref_csv fs file_path rows1 =
      .error (.exc ("File " ++ file_path ++ " does not exist")) ∧
    load_mixins_csv fs file_path rows2 =
      .error (.exc ("File " ++ file_path ++ " does not exist")) ∧
    load_patches_csv fs file_path rows3 =
      .error (.exc ("File " ++ file_path ++ " does not exist")) := by
  refine ⟨⟨"File ", " does not exist", rfl⟩, ?_, ?_, ?_⟩
  · simp [load_backref_csv, h]
  · simp [load_mixins_csv, h]
  · simp [load_patches_csv, h]

/-- C7 (witness). -/
theorem C7_witness :
    (∃ pre post,
      "File " ++ "absent.csv" ++ " does not exist" = pre ++ "absent.csv" ++ post) ∧
    load_backref_csv fsNone "absent.csv" [] =
      .error (.exc ("File " ++ "absent.csv" ++ " does not exist")) ∧
    load_mixins_csv fsNone "absent.csv" [] =
      .error (.exc ("File " ++ "absent.csv" ++ " does not exist")) ∧
    load_patches_csv fsNone "absent.csv" [] =
      .error (.exc ("File " ++ "absent.csv" ++ " does not exist")) :=
  C7_thm fsNone "absent.csv" [] [] [] rfl

/-- C8: when several rows share the same (source table, target table) pair,
the loaded mapping contains exactly one record for that pair — the record
built from the last such row (`lastFor`); every earlier row for the pair is
discarded. -/
theorem C8_thm (fs : FS) (file_path : String) (rows : List (List String))
    (hex : (fs file_path).isSome = true) (hwf : wf3 rows) :
    ∃ l, load_backref_csv fs file_path rows = .ok l ∧ (dictKeys l).Nodup ∧
      ∀ s t, dictGet l (s, t) = (lastFor rows (s, t)).map mkBackRef := by
  obtain ⟨l, hgo, hn, hlook⟩ := backrefGo_spec rows [] hwf (by simp [dictKeys_nil])
  refine ⟨l, ?_, hn, fun s t => ?_⟩
  · rw [load_backref_csv]
    simp only [isNone_eq_false hex, Bool.false_eq_true, if_false]
    exact hgo
  · rw [hlook (s, t)]
    cases hl : lastFor rows (s, t) with
    | none => simp [dictGet]
    | some r => simp

/-- C8 (witness). -/
theorem C8_witness :
    ∃ l, load_backref_csv fsAll "backrefs8.csv" [["a", "b", "n1"], ["a", "b", "n2", "J"]] =
        .ok l ∧ (dictKeys l).Nodup ∧
      ∀ s t, dictGet l (s, t) =
        (lastFor [["a", "b", "n1"], ["a", "b", "n2", "J"]] (s, t)).map mkBackRef :=
  C8_thm fsAll "backrefs8.csv" [["a", "b", "n1"], ["a", "b", "n2", "J"]] rfl (by decide)

/-- C9: when the file exists, `load_backref_csv` is total under the
precondition that every non-blank row has at least three fields, and fails
with an `IndexError` whenever some non-blank row has fewer than three
fields. -/
theorem C9_thm (fs : FS) (file_path : String) (rows : List (List String))
    (hex : (fs file_path).isSome = true) :
    (wf3 rows → ∃ l, load_backref_csv fs file_path rows = .ok l) ∧
    ((∃ row ∈ rows, row ≠ [] ∧ row.length < 3) →
      load_backref_csv fs file_path rows = .error .indexError) := by
  constructor
  · intro hwf
    obtain ⟨l, hgo, _, _⟩ := backrefGo_spec rows [] hwf (by simp [dictKeys_nil])
    refine ⟨l, ?_⟩
    rw [load_backref_csv]
    simp only [isNone_eq_false hex, Bool.false_eq_true, if_false]
    exact hgo
  · intro hshort
    rw [load_backref_csv]
    simp only [isNone_eq_false hex, Bool.false_eq_true, if_false]
    exact backrefGo_short rows [] hshort

/-- C9 (witness): a well-formed file loads, a two-field row fails with an
indexing error. -/
theorem C9_witness :
    (∃ l, load_backref_csv fsAll "backrefs9ok.csv" [["a", "b", "c"]] = .ok l) ∧
    load_backref_csv fsAll "backrefs9.csv" [["a", "b"]] = .error .indexError :=
  ⟨(C9_thm fsAll "backrefs9ok.csv" [["a", "b", "c"]] rfl).1 (by decide),
   (C9_thm fsAll "backrefs9.csv" [["a", "b"]] rfl).2 (by decide)⟩

/-- C10: all three loaders skip blank rows — loading any CSV gives exactly
the same result as loading the same CSV with all empty lines removed. -/
theorem C10_thm (fs : FS) (file_path : String) (rows : List (List String)) :
    load_backref_csv fs file_path rows = load_backref_csv fs file_path (nonblank rows) ∧
    load_mixins_csv fs file_path rows = load_mixins_csv fs file_path (nonblank rows) ∧
    load_patches_csv fs file_path rows = load_patches_csv fs file_path (nonblank rows) := by
  by_cases hfs : (fs file_path).isNone = true
  · exact ⟨by simp [load_backref_csv, hfs], by simp [load_mixins_csv, hfs],
      by simp [load_patches_csv, hfs]⟩
  · simp only [Bool.not_eq_true] at hfs
    refine ⟨?_, ?_, ?_⟩
    · simp only [load_backref_csv, hfs, Bool.false_eq_true, if_false]
      exact (backrefGo_filter rows []).symm
    · simp only [load_mixins_csv, hfs, Bool.false_eq_true, if_false]
      exact (mixinsGo_filter rows []).symm
    · simp only [load_patches_csv, hfs, Bool.false_eq_true, if_false]
      exact (patchesGo_filter fs rows 0 []).symm
